import Mathlib

/-!
A shallow embedding of the traffic-light intersection simulation
`traffic_light_sim.py`, together with theorems checking its
natural-language specification.

Modelling conventions: Python floats are modelled as exact rationals;
Python `round` (which rounds halves to the nearest even integer) is
`pyRound`; the shared `random.random()` stream is an explicit function
`ℕ → ℚ` consumed at an explicit cursor `rngIdx`; object identity of
`User`s is modelled by a store (a list of users) indexed by
natural-number ids, so that a user queued in a lane and listed in the
global user list of the simulation is one and the same object.  The only
exception raised by the source, the category check of `Lane.add`, is
modelled with `Except`.
-/

namespace TrafficSim

/-- The four categories of road users (`UserCategory` in the source). -/
inductive UserCategory where
  | CAR
  | RT
  | CYCLIST
  | PEDESTRIAN
  deriving DecidableEq, Repr

/-- Seconds for one member of the category to vacate the intersection
(`CAR_CLEAR = 1`, `RT_CLEAR = 2`, `CYCLIST_CLEAR = 5`,
`PEDESTRIAN_CLEAR = 15`). -/
def clear_time : UserCategory → ℚ
  | .CAR => 1
  | .RT => 2
  | .CYCLIST => 5
  | .PEDESTRIAN => 15

/-- Mean seconds between successive arrivals (`CAR_DELAY = 1`,
`RT_DELAY = 60 * 4`, `CYCLIST_DELAY = 10`, `PEDESTRIAN_DELAY = 2`). -/
def period : UserCategory → ℚ
  | .CAR => 1
  | .RT => 60 * 4
  | .CYCLIST => 10
  | .PEDESTRIAN => 2

/-- Service concurrency (`CAR_OVERLAP = 2`, `RT_OVERLAP = 1`,
`CYCLIST_OVERLAP = 6`, `PEDESTRIAN_OVERLAP = 18`). -/
def overlaps : UserCategory → ℚ
  | .CAR => 2
  | .RT => 1
  | .CYCLIST => 6
  | .PEDESTRIAN => 18

/-- The green-phase duration, `LIGHT_TIME = 30` seconds. -/
def LIGHT_TIME : ℚ := 30

/-- The four cardinal directions. -/
inductive Direction where
  | NORTH
  | EAST
  | SOUTH
  | WEST
  deriving DecidableEq, Repr

/-- The two phases of the traffic light. -/
inductive LightPhase where
  | NORTH_SOUTH
  | EAST_WEST
  deriving DecidableEq, Repr

/-- A road user: its category, accumulated intersection time (starts at
0) and cleared flag (starts false). -/
structure User where
  category : UserCategory
  intersection_time : ℚ
  cleared : Bool
  deriving DecidableEq, Repr

/-- Python `round` on an exact rational: round to the nearest integer,
halves to the nearest even integer. -/
def pyRound (q : ℚ) : ℤ :=
  if q - Int.floor q < 1 / 2 then Int.floor q
  else if (1 : ℚ) / 2 < q - Int.floor q then Int.floor q + 1
  else if Int.floor q % 2 = 0 then Int.floor q else Int.floor q + 1

/-- Python `round(n, -3)` on a nonnegative integer count: round to the
nearest multiple of 1000, halves to the even multiple. -/
def pyRoundNeg3 (n : ℕ) : ℕ := (pyRound ((n : ℚ) / 1000) * 1000).toNat

/-- Increase the accumulated intersection time of a user by `q` seconds. -/
def addTime (q : ℚ) (u : User) : User :=
  { u with intersection_time := u.intersection_time + q }

/-- Update the element at position `i` of a list (a no-op when out of
range), modelling in-place mutation of the object an id refers to. -/
def updAt {α : Type} : List α → ℕ → (α → α) → List α
  | [], _, _ => []
  | u :: us, 0, f => f u :: us
  | u :: us, n + 1, f => u :: updAt us n f

/-- Add `q` seconds to the time of every user id in `ids` (a Python
`for user in self.users` loop over the queue of a lane). -/
def addList (q : ℚ) (ids : List ℕ) (st : List User) : List User :=
  ids.foldl (fun s i => updAt s i (addTime q)) st

/-- A lane: its fixed category and the FIFO queue of user ids. -/
structure Lane where
  category : UserCategory
  users : List ℕ
  deriving DecidableEq, Repr

/-- The rounding and clearing applied to the popped user at discharge
time. -/
def popFinish (u : User) : User :=
  { u with intersection_time := (pyRound u.intersection_time : ℚ), cleared := true }

/-- `Lane.add`: raises on a category mismatch, else appends the user id
to the tail of the queue. -/
def Lane.add (lane : Lane) (u : User) (uid : ℕ) : Except Unit Lane :=
  if u.category ≠ lane.category then Except.error ()
  else Except.ok { lane with users := lane.users ++ [uid] }

/-- `Lane.discharge`: add `clear_time / overlaps` to every queued user,
then, if the queue is non-empty, pop the head user, round its time and
mark it cleared. -/
def Lane.discharge (st : List User) (lane : Lane) : List User × Lane :=
  let st1 := addList (clear_time lane.category / overlaps lane.category) lane.users st
  match lane.users with
  | [] => (st1, lane)
  | h :: t => (updAt st1 h popFinish, { lane with users := t })

/-- `Lane.hold`: add `LIGHT_TIME` to every queued user. -/
def Lane.hold (st : List User) (lane : Lane) : List User :=
  addList LIGHT_TIME lane.users st

/-- A source: its direction and its lanes in creation order. -/
structure Source where
  direction : Direction
  lanes : List Lane
  deriving DecidableEq, Repr

/-- Whether a lane with the given queue length beats the best candidate
so far (`destination is None or len(lane.users) < len(destination.users)`
in the source). -/
def betterThan (best : Option (ℕ × ℕ)) (len : ℕ) : Bool :=
  match best with
  | none => true
  | some (_, bl) => len < bl

/-- The loop of `Source.add`: scan the lanes left to right, keeping the
index and queue length of the best matching lane so far. -/
def findDestGo (cat : UserCategory) : List Lane → ℕ → Option (ℕ × ℕ) → Option (ℕ × ℕ)
  | [], _, best => best
  | l :: ls, i, best =>
    findDestGo cat ls (i + 1)
      (if l.category = cat ∧ betterThan best l.users.length = true
       then some (i, l.users.length) else best)

/-- The destination lane chosen by `Source.add`, with its queue length. -/
def Source.findDest (s : Source) (cat : UserCategory) : Option (ℕ × ℕ) :=
  findDestGo cat s.lanes 0 none

/-- `Source.add`: route a user id to the least-loaded lane of the category
of the user (the first such lane on ties); `false` when no lane of that
category exists.  The category check of `Lane.add` is inlined here: the
chosen lane provably carries the category of the user. -/
def Source.add (s : Source) (cat : UserCategory) (uid : ℕ) : Bool × Source :=
  match s.findDest cat with
  | none => (false, s)
  | some (i, _) =>
    (true, { s with lanes := updAt s.lanes i (fun l => { l with users := l.users ++ [uid] }) })

/-- `Source.hold`: hold every lane the source owns. -/
def Source.hold (st : List User) (s : Source) : List User :=
  s.lanes.foldl Lane.hold st

/-- The loop of `Source.discharge`: discharge every lane of the matching
category, in lane order, threading the user store. -/
def dischargeLanes (cat : UserCategory) : List User → List Lane → List User × List Lane
  | st, [] => (st, [])
  | st, l :: ls =>
    if l.category = cat then
      let p := Lane.discharge st l
      let q := dischargeLanes cat p.1 ls
      (q.1, p.2 :: q.2)
    else
      let q := dischargeLanes cat st ls
      (q.1, l :: q.2)

/-- `Source.discharge category`: discharge each matching lane once. -/
def Source.discharge (st : List User) (s : Source) (cat : UserCategory) : List User × Source :=
  let p := dischargeLanes cat st s.lanes
  (p.1, { s with lanes := p.2 })

/-- The four sources, in the dict insertion order of the source
(`NORTH, EAST, SOUTH, WEST`). -/
structure Sources where
  north : Source
  east : Source
  south : Source
  west : Source
  deriving DecidableEq, Repr

/-- Look a source up by direction. -/
def getSource (ss : Sources) : Direction → Source
  | .NORTH => ss.north
  | .EAST => ss.east
  | .SOUTH => ss.south
  | .WEST => ss.west

/-- Replace a source by direction. -/
def setSource (ss : Sources) : Direction → Source → Sources
  | .NORTH, s => { ss with north := s }
  | .EAST, s => { ss with east := s }
  | .SOUTH, s => { ss with south := s }
  | .WEST, s => { ss with west := s }

/-- The part of the simulation state the light sessions act on: the
global user-id list, the user store, the sources, and the random stream
with its cursor.  The clock and horizon live in `Simulation`; the source
source `light_session` never reads them. -/
structure SimState where
  users : List ℕ
  store : List User
  sources : Sources
  rng : ℕ → ℚ
  rngIdx : ℕ

/-- Create one user of the category and route it via `Source.add`; on
success the user joins the store and the global user list, on failure it
is discarded and retained nowhere. -/
def genOne (st : SimState) (d : Direction) (cat : UserCategory) : SimState :=
  let uid := st.store.length
  let r := Source.add (getSource st.sources d) cat uid
  if r.1 then
    { st with sources := setSource st.sources d r.2,
              store := st.store ++ [⟨cat, 0, false⟩],
              users := st.users ++ [uid] }
  else st

/-- The `for i in range(number_added)` loop. -/
def addLoop (d : Direction) (cat : UserCategory) : ℕ → SimState → SimState
  | 0, st => st
  | n + 1, st => addLoop d cat n (genOne st d cat)

/-- How many users one random draw generates: the rare-arrival branch
when `expected < 0.8`, else `round(expected * 2 * draw)`. -/
def numberAdded (cat : UserCategory) (u : ℚ) : ℕ :=
  if LIGHT_TIME / period cat < 0.8 then
    (if u < LIGHT_TIME / period cat then 1 else 0)
  else (pyRound (LIGHT_TIME / period cat * 2 * u)).toNat

/-- Arrival generation for one source and one category: one random draw,
then the add loop. -/
def genUsers (st : SimState) (d : Direction) (cat : UserCategory) : SimState :=
  addLoop d cat (numberAdded cat (st.rng st.rngIdx)) { st with rngIdx := st.rngIdx + 1 }

/-- Source iteration order (`self.sources.values()`). -/
def dirList : List Direction := [.NORTH, .EAST, .SOUTH, .WEST]

/-- Category iteration order (`for category in UserCategory`). -/
def catList : List UserCategory := [.CAR, .RT, .CYCLIST, .PEDESTRIAN]

/-- Arrival generation of one phase: for every source and every category
in iteration order, one draw and the corresponding adds. -/
def arrivals (st : SimState) : SimState :=
  dirList.foldl (fun s d => catList.foldl (fun s2 c => genUsers s2 d c) s) st

/-- `floor(LIGHT_TIME * overlaps / clear_time)`: the number of discharge
quanta per green phase for the category. -/
def numCleared (cat : UserCategory) : ℕ :=
  (Int.floor (LIGHT_TIME * overlaps cat / clear_time cat)).toNat

/-- The `for i in range(num_cleared)` loop of discharge quanta. -/
def dischargeN (cat : UserCategory) : ℕ → List User → Source → List User × Source
  | 0, st, s => (st, s)
  | n + 1, st, s =>
    let p := Source.discharge st s cat
    dischargeN cat n p.1 p.2

/-- One green source: for every category, `numCleared` discharge calls. -/
def greenSource (st : List User) (s : Source) : List User × Source :=
  catList.foldl (fun p c => dischargeN c (numCleared c) p.1 p.2) (st, s)

/-- `light_session(phase)`: arrival generation, then hold on the red
axis, then the discharge quanta on the green axis. -/
def light_session (st : SimState) (phase : LightPhase) : SimState :=
  let s1 := arrivals st
  match phase with
  | .EAST_WEST =>
    let h1 := Source.hold s1.store s1.sources.north
    let h2 := Source.hold h1 s1.sources.south
    let p1 := greenSource h2 s1.sources.east
    let p2 := greenSource p1.1 s1.sources.west
    { s1 with store := p2.1,
              sources := { s1.sources with east := p1.2, west := p2.2 } }
  | .NORTH_SOUTH =>
    let h1 := Source.hold s1.store s1.sources.east
    let h2 := Source.hold h1 s1.sources.west
    let p1 := greenSource h2 s1.sources.north
    let p2 := greenSource p1.1 s1.sources.south
    { s1 with store := p2.1,
              sources := { s1.sources with north := p1.2, south := p2.2 } }

/-- The whole simulation: the horizon, the clock, and the session
state. -/
structure Simulation where
  stop_time : ℚ
  time : ℚ
  state : SimState

/-- One iteration of the play loop: the clock advances by a full phase
pair, then the NORTH_SOUTH session runs, then the EAST_WEST session. -/
def playStep (sim : Simulation) : Simulation :=
  { sim with time := sim.time + 2 * LIGHT_TIME,
             state := light_session (light_session sim.state .NORTH_SOUTH) .EAST_WEST }

/-- `play()`: while `time < stop_time`, run one phase pair. -/
def Simulation.play (sim : Simulation) : Simulation :=
  if _h : sim.time < sim.stop_time then Simulation.play (playStep sim) else sim
termination_by (Int.ceil (sim.stop_time - sim.time)).toNat
decreasing_by
  have ht : (playStep sim).time = sim.time + 2 * LIGHT_TIME := rfl
  have hs : (playStep sim).stop_time = sim.stop_time := rfl
  rw [ht, hs]
  have h2 : Int.ceil (sim.stop_time - (sim.time + 2 * LIGHT_TIME))
      = Int.ceil (sim.stop_time - sim.time) - 60 := by
    have h3 : sim.stop_time - (sim.time + 2 * LIGHT_TIME)
        = sim.stop_time - sim.time - ((60 : ℤ) : ℚ) := by
      push_cast
      rw [LIGHT_TIME]
      ring
    rw [h3, Int.ceil_sub_int]
  have h4 : 1 ≤ Int.ceil (sim.stop_time - sim.time) := by
    have h5 : (0 : ℚ) < sim.stop_time - sim.time := by linarith
    exact Int.ceil_pos.mpr h5
  omega

/-- The constructor of `Source`: the requested number of lanes per
category, in insertion order of the lookup. -/
def mkSource (d : Direction) (lookup : List (UserCategory × ℕ)) : Source :=
  ⟨d, lookup.foldl (fun ls p => ls ++ List.replicate p.2 ⟨p.1, []⟩) []⟩

/-- The constructor of `Simulation`: clock at zero, no users, the four
sources built from the per-direction lane lookups. -/
def mkSimulation (stop_time : ℚ) (lookup : Direction → List (UserCategory × ℕ))
    (rng : ℕ → ℚ) : Simulation :=
  { stop_time := stop_time, time := 0,
    state := { users := [], store := [],
               sources := { north := mkSource .NORTH (lookup .NORTH),
                            east := mkSource .EAST (lookup .EAST),
                            south := mkSource .SOUTH (lookup .SOUTH),
                            west := mkSource .WEST (lookup .WEST) },
               rng := rng, rngIdx := 0 } }

/-- `category_intersection_times`: the times of the cleared users of the
category, in global user-list order. -/
def Simulation.category_intersection_times (sim : Simulation) (cat : UserCategory) : List ℚ :=
  ((sim.state.users.filterMap (fun i => sim.state.store[i]?)).filter
      (fun u => u.cleared && u.category == cat)).map (fun u => u.intersection_time)

/-- `Simulation.average`: sum divided by length, failing on an empty
list (Python raises ZeroDivisionError there). -/
def Simulation.average (l : List ℚ) : Except Unit ℚ :=
  if l.length = 0 then Except.error () else Except.ok (l.sum / l.length)

/-- `run()`: play, then per category the pair of the count rounded to
the nearest thousand and the rounded mean (or the sentinel -1 on an
empty sample).  The final simulation state is returned alongside the
report. -/
def Simulation.run (sim : Simulation) : Simulation × (UserCategory → ℕ × ℤ) :=
  let sim2 := sim.play
  (sim2, fun cat =>
    let x := sim2.category_intersection_times cat
    (pyRoundNeg3 x.length,
     if x.isEmpty then -1
     else match Simulation.average x with
          | Except.ok v => pyRound v
          | Except.error _ => 0))

/-- Specification-side sample for one category: filter the store of all
users directly (rather than walking the id list as the code does). -/
def specSample (sim : Simulation) (cat : UserCategory) : List ℚ :=
  (sim.state.store.filter (fun u => u.cleared && u.category == cat)).map
    (fun u => u.intersection_time)

/-- Every user in the store has nonnegative accumulated time. -/
def storeNonneg (st : List User) : Prop := ∀ u ∈ st, 0 ≤ u.intersection_time

/-- The store `t` extends `s` without decreasing the accumulated time
of any user. -/
def storeMono (s t : List User) : Prop :=
  s.length ≤ t.length ∧
  ∀ (j : ℕ) (u v : User),
    s[j]? = some u → t[j]? = some v → u.intersection_time ≤ v.intersection_time

/-- The matching lane `l` sits at position `j` of `ls`. -/
def laneAt (ls : List Lane) (cat : UserCategory) (j : ℕ) (l : Lane) : Prop :=
  ls[j]? = some l ∧ l.category = cat

/-- The global user-id list is exactly the list of store positions (the
code appends to both in lock step). -/
def usersRange (s : SimState) : Prop := s.users = List.range s.store.length

/-- One session state evolves into another: the time of no user decreases,
nonnegativity of times is preserved, and the id-list invariant is
preserved. -/
def evolves (a b : SimState) : Prop :=
  storeMono a.store b.store ∧ (storeNonneg a.store → storeNonneg b.store) ∧
  (usersRange a → usersRange b)

/-- Concrete store for exercising `Lane.discharge`. -/
def c1store : List User := [⟨.CAR, 0, false⟩, ⟨.CAR, 30, false⟩, ⟨.CAR, 7, false⟩]

/-- Concrete lane queueing users 0 and 1 of `c1store`. -/
def c1lane : Lane := ⟨.CAR, [0, 1]⟩

/-- Random stream producing zero arrivals everywhere: the RT draws (at
cursor positions 1 mod 4) must be at least 1/8, all other draws round
to zero users. -/
def c2rng : ℕ → ℚ := fun k => if k % 4 = 1 then 1 / 2 else 0

/-- Session state with one CAR lane at NORTH holding the given queue
and no lanes anywhere else. -/
def c2state (ids : List ℕ) (st : List User) (us : List ℕ) : SimState :=
  { users := us, store := st,
    sources := { north := ⟨.NORTH, [⟨.CAR, ids⟩]⟩, east := ⟨.EAST, []⟩,
                 south := ⟨.SOUTH, []⟩, west := ⟨.WEST, []⟩ },
    rng := c2rng, rngIdx := 0 }

/-- Random stream for the rounding scenario: exactly one CAR arrives at
NORTH in the first session (the draw 1/60 makes `round(60 * u) = 1`),
and nothing else ever arrives. -/
def c5rng : ℕ → ℚ := fun k => if k = 0 then 1 / 60 else if k % 4 = 1 then 1 / 2 else 0

/-- Lane configuration with a single CAR lane at NORTH. -/
def c5lookup : Direction → List (UserCategory × ℕ)
  | .NORTH => [(UserCategory.CAR, 1)]
  | _ => []

/-- A one-phase-pair simulation with a single CAR lane at NORTH. -/
def c5sim : Simulation := mkSimulation 1 c5lookup c5rng

/-- Concrete source exercising the least-loaded-lane tie-break: lanes 2
and 3 both hold one CAR, so lane 2 must win. -/
def c7source : Source :=
  ⟨.NORTH, [⟨.PEDESTRIAN, []⟩, ⟨.CAR, [5, 6]⟩, ⟨.CAR, [7]⟩, ⟨.CAR, [8]⟩]⟩

/-! Basic lemmas about the store helpers. -/

theorem updAt_length {α : Type} (l : List α) (i : ℕ) (f : α → α) :
    (updAt l i f).length = l.length := by
  induction l generalizing i with
  | nil => rfl
  | cons x xs ih =>
    cases i with
    | zero => rfl
    | succ n => simp [updAt, ih]

theorem getElem?_updAt {α : Type} (l : List α) (i j : ℕ) (f : α → α) :
    (updAt l i f)[j]? = if i = j then (l[j]?).map f else l[j]? := by
  induction l generalizing i j with
  | nil => simp [updAt]
  | cons x xs ih =>
    cases i with
    | zero =>
      cases j with
      | zero => simp [updAt]
      | succ m => simp [updAt]
    | succ n =>
      cases j with
      | zero => simp [updAt]
      | succ m => simp [updAt, ih, Nat.succ_inj]

theorem addTime_zero (u : User) : addTime 0 u = u := by
  cases u
  simp [addTime]

theorem addTime_addTime (a b : ℚ) (u : User) :
    addTime b (addTime a u) = addTime (a + b) u := by
  cases u
  simp [addTime, add_assoc]

theorem addList_getElem (q : ℚ) (ids : List ℕ) :
    ∀ (st : List User) (j : ℕ),
      (addList q ids st)[j]? = (st[j]?).map (addTime ((ids.count j : ℚ) * q)) := by
  induction ids with
  | nil =>
    intro st j
    simp only [addList, List.foldl_nil, List.count_nil, Nat.cast_zero, zero_mul]
    cases st[j]? <;> simp [addTime_zero]
  | cons i is ih =>
    intro st j
    have step : addList q (i :: is) st = addList q is (updAt st i (addTime q)) := rfl
    rw [step, ih, getElem?_updAt]
    by_cases hij : i = j
    · subst hij
      simp only [if_pos rfl, Option.map_map, List.count_cons_self]
      cases st[i]? with
      | none => rfl
      | some u =>
        show some (addTime ((is.count i : ℚ) * q) (addTime q u))
            = some (addTime (((is.count i + 1 : ℕ) : ℚ) * q) u)
        rw [addTime_addTime]
        have harg : q + (is.count i : ℚ) * q = ((is.count i + 1 : ℕ) : ℚ) * q := by
          push_cast
          ring
        rw [harg]
    · have hcount : (i :: is).count j = is.count j := by
        simp [List.count_cons, hij]
      rw [if_neg hij, hcount]

theorem addList_length (q : ℚ) (ids : List ℕ) :
    ∀ st : List User, (addList q ids st).length = st.length := by
  induction ids with
  | nil => intro st; rfl
  | cons i is ih =>
    intro st
    have step : addList q (i :: is) st = addList q is (updAt st i (addTime q)) := rfl
    rw [step, ih, updAt_length]

/-! Lemmas about Python rounding. -/

theorem pyRound_ge (q : ℚ) : q - 1 / 2 ≤ (pyRound q : ℚ) := by
  have h1 : ((Int.floor q : ℤ) : ℚ) ≤ q := Int.floor_le q
  have h2 : q < ((Int.floor q : ℤ) : ℚ) + 1 := Int.lt_floor_add_one q
  unfold pyRound
  split_ifs <;> push_cast <;> linarith

theorem pyRound_le (q : ℚ) : (pyRound q : ℚ) ≤ q + 1 / 2 := by
  have h1 : ((Int.floor q : ℤ) : ℚ) ≤ q := Int.floor_le q
  have h2 : q < ((Int.floor q : ℤ) : ℚ) + 1 := Int.lt_floor_add_one q
  unfold pyRound
  split_ifs with ha hb <;> push_cast <;> linarith

theorem pyRound_nonneg (q : ℚ) (h : 0 ≤ q) : 0 ≤ pyRound q := by
  have h1 : 0 ≤ Int.floor q := Int.floor_nonneg.mpr h
  unfold pyRound
  split_ifs <;> omega

/-- Every per-quantum increment `clear_time / overlaps` is at least one
half second. -/
theorem half_le_inc (cat : UserCategory) : 1 / 2 ≤ clear_time cat / overlaps cat := by
  cases cat <;> norm_num [clear_time, overlaps]

/-! Lemmas about the store evolution predicates. -/

theorem storeMono_refl (s : List User) : storeMono s s :=
  ⟨le_refl _, fun _ u v hu hv => by
    rw [hu] at hv
    cases hv
    exact le_refl _⟩

theorem storeMono_trans {a b c : List User} (h1 : storeMono a b) (h2 : storeMono b c) :
    storeMono a c := by
  refine ⟨le_trans h1.1 h2.1, fun j u w hu hw => ?_⟩
  have hj : j < a.length := (List.getElem?_eq_some_iff.mp hu).1
  have hjb : j < b.length := lt_of_lt_of_le hj h1.1
  have hb : b[j]? = some b[j] := List.getElem?_eq_getElem hjb
  exact le_trans (h1.2 j u _ hu hb) (h2.2 j _ w hb hw)

theorem storeMono_append (s l : List User) : storeMono s (s ++ l) := by
  refine ⟨by simp, fun j u v hu hv => ?_⟩
  have hj : j < s.length := (List.getElem?_eq_some_iff.mp hu).1
  rw [List.getElem?_append_left hj, hu] at hv
  cases hv
  exact le_refl _

theorem storeMono_addList (q : ℚ) (hq : 0 ≤ q) (ids : List ℕ) (st : List User) :
    storeMono st (addList q ids st) := by
  refine ⟨le_of_eq (addList_length q ids st).symm, fun j u v hu hv => ?_⟩
  rw [addList_getElem, hu] at hv
  cases hv
  have : 0 ≤ ((ids.count j : ℚ)) * q := mul_nonneg (by positivity) hq
  simp only [addTime]
  linarith

theorem storeNonneg_addList (q : ℚ) (hq : 0 ≤ q) (ids : List ℕ) (st : List User)
    (h : storeNonneg st) : storeNonneg (addList q ids st) := by
  intro v hv
  obtain ⟨j, hj⟩ := List.mem_iff_getElem?.mp hv
  rw [addList_getElem] at hj
  cases hu : st[j]? with
  | none => rw [hu] at hj; cases hj
  | some u =>
    rw [hu] at hj
    cases hj
    have hmem : u ∈ st := List.mem_iff_getElem?.mpr ⟨j, hu⟩
    have hu0 : 0 ≤ u.intersection_time := h u hmem
    have hc : 0 ≤ ((ids.count j : ℚ)) * q := mul_nonneg (by positivity) hq
    simp only [addTime]
    linarith

/-! Characterization of `Lane.discharge`. -/

theorem discharge_fst_nil (st : List User) (lane : Lane) (h : lane.users = []) :
    (Lane.discharge st lane).1 = st := by
  unfold Lane.discharge
  rw [h]
  rfl

theorem discharge_snd_nil (st : List User) (lane : Lane) (h : lane.users = []) :
    (Lane.discharge st lane).2 = lane := by
  unfold Lane.discharge
  rw [h]

theorem discharge_fst_cons (st : List User) (lane : Lane) (h : ℕ) (t : List ℕ)
    (hu : lane.users = h :: t) :
    (Lane.discharge st lane).1
      = updAt (addList (clear_time lane.category / overlaps lane.category) lane.users st)
          h popFinish := by
  unfold Lane.discharge
  rw [hu]

theorem discharge_snd_cons (st : List User) (lane : Lane) (h : ℕ) (t : List ℕ)
    (hu : lane.users = h :: t) :
    (Lane.discharge st lane).2 = { lane with users := t } := by
  unfold Lane.discharge
  rw [hu]

theorem discharge_fst_length (st : List User) (lane : Lane) :
    (Lane.discharge st lane).1.length = st.length := by
  cases hu : lane.users with
  | nil => rw [discharge_fst_nil st lane hu]
  | cons h t =>
    rw [discharge_fst_cons st lane h t hu, updAt_length, addList_length]

theorem discharge_getElem_cons (st : List User) (lane : Lane) (h : ℕ) (t : List ℕ)
    (hu : lane.users = h :: t) (j : ℕ) :
    ((Lane.discharge st lane).1)[j]?
      = (if h = j then
          ((st[j]?).map
            (addTime ((lane.users.count j : ℚ)
              * (clear_time lane.category / overlaps lane.category)))).map popFinish
        else
          (st[j]?).map
            (addTime ((lane.users.count j : ℚ)
              * (clear_time lane.category / overlaps lane.category)))) := by
  rw [discharge_fst_cons st lane h t hu, getElem?_updAt, addList_getElem]

theorem discharge_mono (st : List User) (lane : Lane) :
    storeMono st (Lane.discharge st lane).1 := by
  cases hu : lane.users with
  | nil => rw [discharge_fst_nil st lane hu]; exact storeMono_refl st
  | cons h t =>
    refine ⟨le_of_eq (discharge_fst_length st lane).symm, fun j u v huj hvj => ?_⟩
    rw [discharge_getElem_cons st lane h t hu j] at hvj
    set q : ℚ := clear_time lane.category / overlaps lane.category with hq
    have hq2 : 1 / 2 ≤ q := half_le_inc lane.category
    by_cases hhj : h = j
    · subst hhj
      rw [if_pos rfl, huj] at hvj
      cases hvj
      have hc : 1 ≤ lane.users.count h := by
        rw [hu]
        exact List.count_pos_iff.mpr (by simp)
      have hc2 : (1 : ℚ) ≤ (lane.users.count h : ℚ) := by exact_mod_cast hc
      have hge := pyRound_ge (u.intersection_time + (lane.users.count h : ℚ) * q)
      simp only [popFinish, addTime]
      have : q ≤ (lane.users.count h : ℚ) * q := by nlinarith
      linarith
    · rw [if_neg hhj, huj] at hvj
      cases hvj
      have : 0 ≤ ((lane.users.count j : ℚ)) * q := mul_nonneg (by positivity) (by linarith)
      simp only [addTime]
      linarith

theorem discharge_nonneg (st : List User) (lane : Lane) (h : storeNonneg st) :
    storeNonneg (Lane.discharge st lane).1 := by
  intro v hv
  obtain ⟨j, hj⟩ := List.mem_iff_getElem?.mp hv
  cases hu : lane.users with
  | nil =>
    rw [discharge_fst_nil st lane hu] at hj
    exact h v (List.mem_iff_getElem?.mpr ⟨j, hj⟩)
  | cons hd t =>
    rw [discharge_getElem_cons st lane hd t hu j] at hj
    set q : ℚ := clear_time lane.category / overlaps lane.category with hqdef
    have hq2 : 1 / 2 ≤ q := half_le_inc lane.category
    cases hst : st[j]? with
    | none => rw [hst] at hj; split_ifs at hj <;> cases hj
    | some u =>
      have hu0 : 0 ≤ u.intersection_time := h u (List.mem_iff_getElem?.mpr ⟨j, hst⟩)
      have hcnt : 0 ≤ ((lane.users.count j : ℚ)) * q := mul_nonneg (by positivity) (by linarith)
      rw [hst] at hj
      by_cases hhj : hd = j
      · rw [if_pos hhj] at hj
        cases hj
        simp only [popFinish, addTime]
        have hc : 1 ≤ lane.users.count j := by
          rw [hu, ← hhj]
          exact List.count_pos_iff.mpr (by simp)
        have hc2 : (1 : ℚ) ≤ (lane.users.count j : ℚ) := by exact_mod_cast hc
        have hge := pyRound_ge (u.intersection_time + (lane.users.count j : ℚ) * q)
        have : q ≤ (lane.users.count j : ℚ) * q := by nlinarith
        linarith
      · rw [if_neg hhj] at hj
        cases hj
        simp only [addTime]
        linarith

/-! Hold lemmas. -/

theorem hold_mono (st : List User) (lane : Lane) : storeMono st (Lane.hold st lane) :=
  storeMono_addList LIGHT_TIME (by norm_num [LIGHT_TIME]) lane.users st

theorem hold_nonneg (st : List User) (lane : Lane) (h : storeNonneg st) :
    storeNonneg (Lane.hold st lane) :=
  storeNonneg_addList LIGHT_TIME (by norm_num [LIGHT_TIME]) lane.users st h

theorem hold_length (st : List User) (lane : Lane) :
    (Lane.hold st lane).length = st.length :=
  addList_length LIGHT_TIME lane.users st

/-! Propagation through the source-level and session-level loops. -/

theorem sourceHold_mono (s : Source) : ∀ st : List User, storeMono st (Source.hold st s) := by
  show ∀ st, storeMono st (s.lanes.foldl Lane.hold st)
  induction s.lanes with
  | nil => intro st; exact storeMono_refl st
  | cons l ls ih =>
    intro st
    exact storeMono_trans (hold_mono st l) (ih (Lane.hold st l))

theorem sourceHold_nonneg (s : Source) :
    ∀ st : List User, storeNonneg st → storeNonneg (Source.hold st s) := by
  show ∀ st, storeNonneg st → storeNonneg (s.lanes.foldl Lane.hold st)
  induction s.lanes with
  | nil => intro st h; exact h
  | cons l ls ih =>
    intro st h
    exact ih (Lane.hold st l) (hold_nonneg st l h)

theorem sourceHold_length (s : Source) :
    ∀ st : List User, (Source.hold st s).length = st.length := by
  show ∀ st, (s.lanes.foldl Lane.hold st).length = st.length
  induction s.lanes with
  | nil => intro st; rfl
  | cons l ls ih =>
    intro st
    rw [List.foldl_cons, ih (Lane.hold st l), hold_length]

theorem dischargeLanes_mono (cat : UserCategory) :
    ∀ (ls : List Lane) (st : List User), storeMono st (dischargeLanes cat st ls).1 := by
  intro ls
  induction ls with
  | nil => intro st; exact storeMono_refl st
  | cons l ls ih =>
    intro st
    unfold dischargeLanes
    split_ifs with hc
    · exact storeMono_trans (discharge_mono st l) (ih (Lane.discharge st l).1)
    · exact ih st

theorem dischargeLanes_nonneg (cat : UserCategory) :
    ∀ (ls : List Lane) (st : List User),
      storeNonneg st → storeNonneg (dischargeLanes cat st ls).1 := by
  intro ls
  induction ls with
  | nil => intro st h; exact h
  | cons l ls ih =>
    intro st h
    unfold dischargeLanes
    split_ifs with hc
    · exact ih (Lane.discharge st l).1 (discharge_nonneg st l h)
    · exact ih st h

theorem dischargeLanes_length (cat : UserCategory) :
    ∀ (ls : List Lane) (st : List User), (dischargeLanes cat st ls).1.length = st.length := by
  intro ls
  induction ls with
  | nil => intro st; rfl
  | cons l ls ih =>
    intro st
    unfold dischargeLanes
    split_ifs with hc
    · simp only []
      rw [ih (Lane.discharge st l).1, discharge_fst_length]
    · exact ih st

theorem sourceDischarge_mono (st : List User) (s : Source) (cat : UserCategory) :
    storeMono st (Source.discharge st s cat).1 :=
  dischargeLanes_mono cat s.lanes st

theorem sourceDischarge_nonneg (st : List User) (s : Source) (cat : UserCategory)
    (h : storeNonneg st) : storeNonneg (Source.discharge st s cat).1 :=
  dischargeLanes_nonneg cat s.lanes st h

theorem sourceDischarge_length (st : List User) (s : Source) (cat : UserCategory) :
    (Source.discharge st s cat).1.length = st.length :=
  dischargeLanes_length cat s.lanes st

theorem dischargeN_mono (cat : UserCategory) :
    ∀ (n : ℕ) (st : List User) (s : Source), storeMono st (dischargeN cat n st s).1 := by
  intro n
  induction n with
  | zero => intro st s; exact storeMono_refl st
  | succ k ih =>
    intro st s
    exact storeMono_trans (sourceDischarge_mono st s cat)
      (ih (Source.discharge st s cat).1 (Source.discharge st s cat).2)

theorem dischargeN_nonneg (cat : UserCategory) :
    ∀ (n : ℕ) (st : List User) (s : Source),
      storeNonneg st → storeNonneg (dischargeN cat n st s).1 := by
  intro n
  induction n with
  | zero => intro st s h; exact h
  | succ k ih =>
    intro st s h
    exact ih (Source.discharge st s cat).1 (Source.discharge st s cat).2
      (sourceDischarge_nonneg st s cat h)

theorem dischargeN_length (cat : UserCategory) :
    ∀ (n : ℕ) (st : List User) (s : Source), (dischargeN cat n st s).1.length = st.length := by
  intro n
  induction n with
  | zero => intro st s; rfl
  | succ k ih =>
    intro st s
    show (dischargeN cat k (Source.discharge st s cat).1 (Source.discharge st s cat).2).1.length
      = st.length
    rw [ih, sourceDischarge_length]

theorem greenSource_mono (st : List User) (s : Source) :
    storeMono st (greenSource st s).1 := by
  have key : ∀ (cs : List UserCategory) (p : List User × Source),
      storeMono p.1 ((cs.foldl (fun p c => dischargeN c (numCleared c) p.1 p.2) p)).1 := by
    intro cs
    induction cs with
    | nil => intro p; exact storeMono_refl p.1
    | cons c cs ih =>
      intro p
      exact storeMono_trans (dischargeN_mono c (numCleared c) p.1 p.2) (ih _)
  exact key catList (st, s)

theorem greenSource_nonneg (st : List User) (s : Source) (h : storeNonneg st) :
    storeNonneg (greenSource st s).1 := by
  have key : ∀ (cs : List UserCategory) (p : List User × Source),
      storeNonneg p.1 →
      storeNonneg ((cs.foldl (fun p c => dischargeN c (numCleared c) p.1 p.2) p)).1 := by
    intro cs
    induction cs with
    | nil => intro p h2; exact h2
    | cons c cs ih =>
      intro p h2
      exact ih _ (dischargeN_nonneg c (numCleared c) p.1 p.2 h2)
  exact key catList (st, s) h

theorem greenSource_length (st : List User) (s : Source) :
    (greenSource st s).1.length = st.length := by
  have key : ∀ (cs : List UserCategory) (p : List User × Source),
      ((cs.foldl (fun p c => dischargeN c (numCleared c) p.1 p.2) p)).1.length = p.1.length := by
    intro cs
    induction cs with
    | nil => intro p; rfl
    | cons c cs ih =>
      intro p
      rw [List.foldl_cons, ih, dischargeN_length]
  exact key catList (st, s)

/-! Evolution through arrival generation. -/

theorem evolves_refl (a : SimState) : evolves a a :=
  ⟨storeMono_refl _, fun h => h, fun h => h⟩

theorem evolves_trans {a b c : SimState} (h1 : evolves a b) (h2 : evolves b c) :
    evolves a c :=
  ⟨storeMono_trans h1.1 h2.1, fun h => h2.2.1 (h1.2.1 h), fun h => h2.2.2 (h1.2.2 h)⟩

theorem genOne_evolves (st : SimState) (d : Direction) (cat : UserCategory) :
    evolves st (genOne st d cat) := by
  simp only [genOne]
  split
  · refine ⟨storeMono_append _ _, fun h => ?_, fun h => ?_⟩
    · intro u hu
      rcases List.mem_append.mp hu with h1 | h1
      · exact h u h1
      · rcases List.mem_singleton.mp h1 with rfl
        exact le_refl 0
    · unfold usersRange at h ⊢
      dsimp only
      rw [h, List.length_append]
      simp [List.range_succ]
  · exact evolves_refl st

theorem addLoop_evolves (d : Direction) (cat : UserCategory) :
    ∀ (n : ℕ) (st : SimState), evolves st (addLoop d cat n st) := by
  intro n
  induction n with
  | zero => intro st; exact evolves_refl st
  | succ k ih =>
    intro st
    exact evolves_trans (genOne_evolves st d cat) (ih (genOne st d cat))

theorem genUsers_evolves (st : SimState) (d : Direction) (cat : UserCategory) :
    evolves st (genUsers st d cat) := by
  unfold genUsers
  have hmid : evolves st { st with rngIdx := st.rngIdx + 1 } :=
    ⟨storeMono_refl _, fun h => h, fun h => h⟩
  exact evolves_trans hmid (addLoop_evolves d cat _ _)

theorem arrivals_evolves (st : SimState) : evolves st (arrivals st) := by
  have inner : ∀ (cs : List UserCategory) (d : Direction) (s : SimState),
      evolves s (cs.foldl (fun s2 c => genUsers s2 d c) s) := by
    intro cs
    induction cs with
    | nil => intro d s; exact evolves_refl s
    | cons c cs ih =>
      intro d s
      exact evolves_trans (genUsers_evolves s d c) (ih d (genUsers s d c))
  have outer : ∀ (ds : List Direction) (s : SimState),
      evolves s (ds.foldl (fun s d => catList.foldl (fun s2 c => genUsers s2 d c) s) s) := by
    intro ds
    induction ds with
    | nil => intro s; exact evolves_refl s
    | cons d ds ih =>
      intro s
      exact evolves_trans (inner catList d s) (ih _)
  exact outer dirList st

/-! Evolution through a whole light session. -/

theorem light_session_users (st : SimState) (p : LightPhase) :
    (light_session st p).users = (arrivals st).users := by
  cases p <;> rfl

theorem light_session_store_length (st : SimState) (p : LightPhase) :
    (light_session st p).store.length = (arrivals st).store.length := by
  cases p <;>
    simp only [light_session] <;>
    rw [greenSource_length, greenSource_length, sourceHold_length, sourceHold_length]

theorem light_session_evolves (st : SimState) (p : LightPhase) :
    evolves st (light_session st p) := by
  refine evolves_trans (arrivals_evolves st) ?_
  set s1 := arrivals st with hs1
  have hmono : storeMono s1.store (light_session st p).store := by
    cases p <;>
      simp only [light_session, ← hs1] <;>
      exact storeMono_trans (sourceHold_mono _ _)
        (storeMono_trans (sourceHold_mono _ _)
          (storeMono_trans (greenSource_mono _ _) (greenSource_mono _ _)))
  have hnn : storeNonneg s1.store → storeNonneg (light_session st p).store := by
    intro h
    cases p <;>
      simp only [light_session, ← hs1] <;>
      exact greenSource_nonneg _ _ (greenSource_nonneg _ _
        (sourceHold_nonneg _ _ (sourceHold_nonneg _ _ h)))
  have hur : usersRange s1 → usersRange (light_session st p) := by
    intro h
    show (light_session st p).users = List.range (light_session st p).store.length
    rw [light_session_users, light_session_store_length, ← hs1]
    exact h
  exact ⟨hmono, hnn, hur⟩

/-! The play loop: unrolling and induction. -/

theorem playStep_time (sim : Simulation) :
    (playStep sim).time = sim.time + 2 * LIGHT_TIME := rfl

theorem playStep_stop (sim : Simulation) :
    (playStep sim).stop_time = sim.stop_time := rfl

theorem play_of_lt (sim : Simulation) (h : sim.time < sim.stop_time) :
    Simulation.play sim = Simulation.play (playStep sim) := by
  rw [Simulation.play]
  simp [h]

theorem play_fix (sim : Simulation) (h : ¬ sim.time < sim.stop_time) :
    Simulation.play sim = sim := by
  rw [Simulation.play]
  simp [h]

theorem playStep_measure (sim : Simulation) :
    Int.ceil ((playStep sim).stop_time - (playStep sim).time)
      = Int.ceil (sim.stop_time - sim.time) - 60 := by
  rw [playStep_time, playStep_stop]
  have h3 : sim.stop_time - (sim.time + 2 * LIGHT_TIME)
      = sim.stop_time - sim.time - ((60 : ℤ) : ℚ) := by
    push_cast
    rw [LIGHT_TIME]
    ring
  rw [h3, Int.ceil_sub_int]

theorem play_inv (P : Simulation → Prop)
    (hstep : ∀ s, s.time < s.stop_time → P s → P (playStep s)) :
    ∀ sim, P sim → P (Simulation.play sim) := by
  have key : ∀ (n : ℕ) (sim : Simulation),
      (Int.ceil (sim.stop_time - sim.time)).toNat ≤ n → P sim → P (Simulation.play sim) := by
    intro n
    induction n with
    | zero =>
      intro sim hle hP
      have hnl : ¬ sim.time < sim.stop_time := by
        intro hlt
        have hp : (0 : ℚ) < sim.stop_time - sim.time := by linarith
        have h1 : 1 ≤ Int.ceil (sim.stop_time - sim.time) := Int.ceil_pos.mpr hp
        omega
      rw [play_fix sim hnl]
      exact hP
    | succ k ih =>
      intro sim hle hP
      by_cases hlt : sim.time < sim.stop_time
      · rw [play_of_lt sim hlt]
        refine ih (playStep sim) ?_ (hstep sim hlt hP)
        have hm := playStep_measure sim
        have hp : (0 : ℚ) < sim.stop_time - sim.time := by linarith
        have h1 : 1 ≤ Int.ceil (sim.stop_time - sim.time) := Int.ceil_pos.mpr hp
        omega
      · rw [play_fix sim hlt]
        exact hP
  intro sim
  exact key (Int.ceil (sim.stop_time - sim.time)).toNat sim (le_refl _)

theorem play_post (sim : Simulation) :
    ¬ (Simulation.play sim).time < (Simulation.play sim).stop_time := by
  have key : ∀ (n : ℕ) (s : Simulation),
      (Int.ceil (s.stop_time - s.time)).toNat ≤ n →
      ¬ (Simulation.play s).time < (Simulation.play s).stop_time := by
    intro n
    induction n with
    | zero =>
      intro s hle
      have hnl : ¬ s.time < s.stop_time := by
        intro hlt
        have hp : (0 : ℚ) < s.stop_time - s.time := by linarith
        have h1 : 1 ≤ Int.ceil (s.stop_time - s.time) := Int.ceil_pos.mpr hp
        omega
      rw [play_fix s hnl]
      exact hnl
    | succ k ih =>
      intro s hle
      by_cases hlt : s.time < s.stop_time
      · rw [play_of_lt s hlt]
        refine ih (playStep s) ?_
        have hm := playStep_measure s
        have hp : (0 : ℚ) < s.stop_time - s.time := by linarith
        have h1 : 1 ≤ Int.ceil (s.stop_time - s.time) := Int.ceil_pos.mpr hp
        omega
      · rw [play_fix s hlt]
        exact hlt
  exact key (Int.ceil (sim.stop_time - sim.time)).toNat sim (le_refl _)

/-! Computation lemmas for the discharge-quanta scenario. -/

theorem genUsers_zero (st : SimState) (d : Direction) (cat : UserCategory)
    (h : numberAdded cat (st.rng st.rngIdx) = 0) :
    genUsers st d cat = { st with rngIdx := st.rngIdx + 1 } := by
  unfold genUsers
  rw [h]
  rfl

theorem arrivals_c2 (us : List ℕ) (st : List User) (srcs : Sources) :
    arrivals ⟨us, st, srcs, c2rng, 0⟩ = ⟨us, st, srcs, c2rng, 16⟩ := by
  have g : ∀ (k : ℕ) (k2 : ℕ) (d : Direction) (cat : UserCategory),
      numberAdded cat (c2rng k) = 0 → k2 = k + 1 →
      genUsers ⟨us, st, srcs, c2rng, k⟩ d cat = ⟨us, st, srcs, c2rng, k2⟩ := by
    intro k k2 d cat h hk
    subst hk
    exact genUsers_zero ⟨us, st, srcs, c2rng, k⟩ d cat h
  simp only [arrivals, dirList, catList, List.foldl]
  rw [g 0 1 _ _ (by with_unfolding_all decide) rfl,
      g 1 2 _ _ (by with_unfolding_all decide) rfl,
      g 2 3 _ _ (by with_unfolding_all decide) rfl,
      g 3 4 _ _ (by with_unfolding_all decide) rfl,
      g 4 5 _ _ (by with_unfolding_all decide) rfl,
      g 5 6 _ _ (by with_unfolding_all decide) rfl,
      g 6 7 _ _ (by with_unfolding_all decide) rfl,
      g 7 8 _ _ (by with_unfolding_all decide) rfl,
      g 8 9 _ _ (by with_unfolding_all decide) rfl,
      g 9 10 _ _ (by with_unfolding_all decide) rfl,
      g 10 11 _ _ (by with_unfolding_all decide) rfl,
      g 11 12 _ _ (by with_unfolding_all decide) rfl,
      g 12 13 _ _ (by with_unfolding_all decide) rfl,
      g 13 14 _ _ (by with_unfolding_all decide) rfl,
      g 14 15 _ _ (by with_unfolding_all decide) rfl,
      g 15 16 _ _ (by with_unfolding_all decide) rfl]

theorem sourceDischarge_single (st : List User) (d : Direction) (q : List ℕ) :
    Source.discharge st ⟨d, [⟨UserCategory.CAR, q⟩]⟩ UserCategory.CAR
      = ((Lane.discharge st ⟨UserCategory.CAR, q⟩).1,
         ⟨d, [(Lane.discharge st ⟨UserCategory.CAR, q⟩).2]⟩) := by
  unfold Source.discharge dischargeLanes
  simp [dischargeLanes]

theorem discharge_snd_tail (st : List User) (q : List ℕ) :
    (Lane.discharge st ⟨UserCategory.CAR, q⟩).2 = ⟨UserCategory.CAR, q.tail⟩ := by
  cases q with
  | nil => rfl
  | cons h t => rfl

theorem drop_tail_eq (q : List ℕ) (k : ℕ) : q.tail.drop k = q.drop (k + 1) := by
  cases q with
  | nil => simp
  | cons h t => rfl

theorem dischargeN_single (d : Direction) :
    ∀ (n : ℕ) (st : List User) (q : List ℕ),
      (dischargeN UserCategory.CAR n st ⟨d, [⟨UserCategory.CAR, q⟩]⟩).2
        = ⟨d, [⟨UserCategory.CAR, q.drop n⟩]⟩ := by
  intro n
  induction n with
  | zero => intro st q; simp [dischargeN]
  | succ k ih =>
    intro st q
    show (dischargeN UserCategory.CAR k
        (Source.discharge st ⟨d, [⟨UserCategory.CAR, q⟩]⟩ UserCategory.CAR).1
        (Source.discharge st ⟨d, [⟨UserCategory.CAR, q⟩]⟩ UserCategory.CAR).2).2
      = ⟨d, [⟨UserCategory.CAR, q.drop (k + 1)⟩]⟩
    rw [sourceDischarge_single, discharge_snd_tail]
    show (dischargeN UserCategory.CAR k (Lane.discharge st ⟨UserCategory.CAR, q⟩).1
        ⟨d, [⟨UserCategory.CAR, q.tail⟩]⟩).2 = _
    rw [ih, drop_tail_eq]

theorem dischargeN_skip (d : Direction) (c : UserCategory) (hc : ¬ c = UserCategory.CAR) :
    ∀ (n : ℕ) (st : List User) (q : List ℕ),
      dischargeN c n st ⟨d, [⟨UserCategory.CAR, q⟩]⟩ = (st, ⟨d, [⟨UserCategory.CAR, q⟩]⟩) := by
  intro n
  induction n with
  | zero => intro st q; rfl
  | succ k ih =>
    intro st q
    have h1 : Source.discharge st ⟨d, [⟨UserCategory.CAR, q⟩]⟩ c
        = (st, ⟨d, [⟨UserCategory.CAR, q⟩]⟩) := by
      unfold Source.discharge dischargeLanes
      rw [if_neg (fun hx => hc hx.symm)]
      rfl
    show dischargeN c k (Source.discharge st ⟨d, [⟨UserCategory.CAR, q⟩]⟩ c).1
        (Source.discharge st ⟨d, [⟨UserCategory.CAR, q⟩]⟩ c).2 = _
    rw [h1]
    exact ih st q

theorem dischargeN_nil_lanes (c : UserCategory) (d : Direction) :
    ∀ (n : ℕ) (st : List User), dischargeN c n st ⟨d, []⟩ = (st, ⟨d, []⟩) := by
  intro n
  induction n with
  | zero => intro st; rfl
  | succ k ih =>
    intro st
    have h1 : Source.discharge st ⟨d, []⟩ c = (st, ⟨d, []⟩) := rfl
    show dischargeN c k (Source.discharge st ⟨d, []⟩ c).1
        (Source.discharge st ⟨d, []⟩ c).2 = _
    rw [h1]
    exact ih st

theorem greenSource_single (d : Direction) (st : List User) (q : List ℕ) :
    (greenSource st ⟨d, [⟨UserCategory.CAR, q⟩]⟩).2
      = ⟨d, [⟨UserCategory.CAR, q.drop 60⟩]⟩ := by
  have hCAR : numCleared UserCategory.CAR = 60 := by with_unfolding_all decide
  simp only [greenSource, catList, List.foldl, hCAR]
  rw [dischargeN_single d 60 st q]
  rw [dischargeN_skip d UserCategory.RT (by simp) _ _ (q.drop 60)]
  rw [dischargeN_skip d UserCategory.CYCLIST (by simp) _ _ (q.drop 60)]
  rw [dischargeN_skip d UserCategory.PEDESTRIAN (by simp) _ _ (q.drop 60)]

theorem greenSource_nil_lanes (d : Direction) (st : List User) :
    greenSource st ⟨d, []⟩ = (st, ⟨d, []⟩) := by
  simp only [greenSource, catList, List.foldl]
  rw [dischargeN_nil_lanes UserCategory.CAR d _ st,
      dischargeN_nil_lanes UserCategory.RT d,
      dischargeN_nil_lanes UserCategory.CYCLIST d,
      dischargeN_nil_lanes UserCategory.PEDESTRIAN d]

theorem light_session_c2 (ids : List ℕ) (st : List User) (us : List ℕ) :
    (light_session (c2state ids st us) LightPhase.NORTH_SOUTH).sources.north
      = ⟨Direction.NORTH, [⟨UserCategory.CAR, ids.drop 60⟩]⟩ := by
  simp only [light_session, c2state]
  rw [arrivals_c2]
  simp only []
  rw [greenSource_single]

/-! Helpers for `run` and the statistics. -/

theorem run_fst (sim : Simulation) : (Simulation.run sim).1 = Simulation.play sim := rfl

theorem average_err : Simulation.average [] = Except.error () := rfl

theorem average_ok (l : List ℚ) (h : ¬ l = []) :
    Simulation.average l = Except.ok (l.sum / l.length) := by
  unfold Simulation.average
  rw [if_neg (by simpa using h)]

theorem run_snd (sim : Simulation) (cat : UserCategory) :
    (Simulation.run sim).2 cat
      = (pyRoundNeg3 ((Simulation.play sim).category_intersection_times cat).length,
         if ((Simulation.play sim).category_intersection_times cat).isEmpty then -1
         else pyRound (((Simulation.play sim).category_intersection_times cat).sum
            / ((Simulation.play sim).category_intersection_times cat).length)) := by
  simp only [Simulation.run]
  by_cases h : ((Simulation.play sim).category_intersection_times cat).isEmpty
  · rw [if_pos h, if_pos h]
  · rw [if_neg h, if_neg h,
        average_ok _ (by simpa [List.isEmpty_iff] using h)]

/-! Characterization of the destination-lane search of `Source.add`. -/

theorem laneAt_nil (cat : UserCategory) (j : ℕ) (l : Lane) : ¬ laneAt [] cat j l := by
  simp [laneAt]

theorem laneAt_cons_zero (l0 : Lane) (ls : List Lane) (cat : UserCategory) (l2 : Lane) :
    laneAt (l0 :: ls) cat 0 l2 ↔ l2 = l0 ∧ l0.category = cat := by
  unfold laneAt
  simp only [List.getElem?_cons_zero, Option.some.injEq]
  constructor
  · rintro ⟨rfl, h⟩
    exact ⟨rfl, h⟩
  · rintro ⟨rfl, h⟩
    exact ⟨rfl, h⟩

theorem laneAt_cons_succ (l0 : Lane) (ls : List Lane) (cat : UserCategory) (k : ℕ) (l2 : Lane) :
    laneAt (l0 :: ls) cat (k + 1) l2 ↔ laneAt ls cat k l2 := by
  unfold laneAt
  simp

theorem go_some (cat : UserCategory) :
    ∀ (ls : List Lane) (i0 bi bl : ℕ),
      (findDestGo cat ls i0 (some (bi, bl)) = some (bi, bl) ∧
        ∀ j l, laneAt ls cat j l → bl ≤ l.users.length) ∨
      (∃ j l, laneAt ls cat j l ∧
        findDestGo cat ls i0 (some (bi, bl)) = some (i0 + j, l.users.length) ∧
        l.users.length < bl ∧
        (∀ k l2, laneAt ls cat k l2 → l.users.length ≤ l2.users.length) ∧
        (∀ k l2, k < j → laneAt ls cat k l2 → l.users.length < l2.users.length)) := by
  intro ls
  induction ls with
  | nil =>
    intro i0 bi bl
    left
    exact ⟨rfl, fun j l h => absurd h (laneAt_nil cat j l)⟩
  | cons l0 ls ih =>
    intro i0 bi bl
    by_cases hm : l0.category = cat ∧ betterThan (some (bi, bl)) l0.users.length = true
    · have hlt0 : l0.users.length < bl := by
        have h2 := hm.2
        simp only [betterThan, decide_eq_true_eq] at h2
        exact h2
      have hgo : findDestGo cat (l0 :: ls) i0 (some (bi, bl))
          = findDestGo cat ls (i0 + 1) (some (i0, l0.users.length)) := by
        simp only [findDestGo, if_pos hm]
      rcases ih (i0 + 1) i0 l0.users.length with
        ⟨hEq, hAll⟩ | ⟨j, lj, hAt, hEq, hlt, hMin, hStrict⟩
      · right
        refine ⟨0, l0, (laneAt_cons_zero l0 ls cat l0).mpr ⟨rfl, hm.1⟩, ?_, hlt0, ?_, ?_⟩
        · rw [hgo, hEq, Nat.add_zero]
        · intro k l2 hk
          cases k with
          | zero =>
            rcases (laneAt_cons_zero l0 ls cat l2).mp hk with ⟨rfl, _⟩
            exact le_refl _
          | succ k2 =>
            exact hAll k2 l2 ((laneAt_cons_succ l0 ls cat k2 l2).mp hk)
        · intro k l2 hklt _
          exact absurd hklt (Nat.not_lt_zero k)
      · right
        refine ⟨j + 1, lj, (laneAt_cons_succ l0 ls cat j lj).mpr hAt, ?_,
          lt_trans hlt hlt0, ?_, ?_⟩
        · rw [hgo, hEq]
          congr 2
          omega
        · intro k l2 hk
          cases k with
          | zero =>
            rcases (laneAt_cons_zero l0 ls cat l2).mp hk with ⟨rfl, _⟩
            exact le_of_lt hlt
          | succ k2 => exact hMin k2 l2 ((laneAt_cons_succ l0 ls cat k2 l2).mp hk)
        · intro k l2 hklt hk
          cases k with
          | zero =>
            rcases (laneAt_cons_zero l0 ls cat l2).mp hk with ⟨rfl, _⟩
            exact hlt
          | succ k2 =>
            exact hStrict k2 l2 (by omega) ((laneAt_cons_succ l0 ls cat k2 l2).mp hk)
    · have hgo : findDestGo cat (l0 :: ls) i0 (some (bi, bl))
          = findDestGo cat ls (i0 + 1) (some (bi, bl)) := by
        simp only [findDestGo, if_neg hm]
      have hside : l0.category = cat → bl ≤ l0.users.length := by
        intro hcat
        by_contra hnb
        exact hm ⟨hcat, by simp only [betterThan, decide_eq_true_eq]; omega⟩
      rcases ih (i0 + 1) bi bl with
        ⟨hEq, hAll⟩ | ⟨j, lj, hAt, hEq, hlt, hMin, hStrict⟩
      · left
        refine ⟨by rw [hgo, hEq], ?_⟩
        intro k l2 hk
        cases k with
        | zero =>
          rcases (laneAt_cons_zero l0 ls cat l2).mp hk with ⟨rfl, hcat⟩
          exact hside hcat
        | succ k2 => exact hAll k2 l2 ((laneAt_cons_succ l0 ls cat k2 l2).mp hk)
      · right
        refine ⟨j + 1, lj, (laneAt_cons_succ l0 ls cat j lj).mpr hAt, ?_, hlt, ?_, ?_⟩
        · rw [hgo, hEq]
          congr 2
          omega
        · intro k l2 hk
          cases k with
          | zero =>
            rcases (laneAt_cons_zero l0 ls cat l2).mp hk with ⟨rfl, hcat⟩
            exact le_trans (le_of_lt hlt) (hside hcat)
          | succ k2 => exact hMin k2 l2 ((laneAt_cons_succ l0 ls cat k2 l2).mp hk)
        · intro k l2 hklt hk
          cases k with
          | zero =>
            rcases (laneAt_cons_zero l0 ls cat l2).mp hk with ⟨rfl, hcat⟩
            exact lt_of_lt_of_le hlt (hside hcat)
          | succ k2 =>
            exact hStrict k2 l2 (by omega) ((laneAt_cons_succ l0 ls cat k2 l2).mp hk)

theorem go_some_ne_none (cat : UserCategory) :
    ∀ (ls : List Lane) (i0 : ℕ) (p : ℕ × ℕ), findDestGo cat ls i0 (some p) ≠ none := by
  intro ls
  induction ls with
  | nil =>
    intro i0 p h
    cases h
  | cons l0 ls ih =>
    intro i0 p
    by_cases hm : l0.category = cat ∧ betterThan (some p) l0.users.length = true
    · simp only [findDestGo, if_pos hm]
      exact ih _ _
    · simp only [findDestGo, if_neg hm]
      exact ih _ _

theorem go_none_iff (cat : UserCategory) :
    ∀ (ls : List Lane) (i0 : ℕ),
      (findDestGo cat ls i0 none = none ↔ ∀ l ∈ ls, l.category ≠ cat) := by
  intro ls
  induction ls with
  | nil =>
    intro i0
    simp [findDestGo]
  | cons l0 ls ih =>
    intro i0
    by_cases hcat : l0.category = cat
    · have hm : l0.category = cat ∧ betterThan none l0.users.length = true := ⟨hcat, rfl⟩
      simp only [findDestGo, if_pos hm]
      constructor
      · intro h
        exact absurd h (go_some_ne_none cat ls (i0 + 1) _)
      · intro h
        exact absurd hcat (h l0 (List.mem_cons_self l0 ls))
    · have hm : ¬ (l0.category = cat ∧ betterThan none l0.users.length = true) :=
        fun h => hcat h.1
      simp only [findDestGo, if_neg hm]
      rw [ih (i0 + 1)]
      constructor
      · intro h l hl
        rcases List.mem_cons.mp hl with rfl | hl2
        · exact hcat
        · exact h l hl2
      · intro h l hl
        exact h l (List.mem_cons_of_mem l0 hl)

theorem go_none_char (cat : UserCategory) :
    ∀ (ls : List Lane) (i0 : ℕ),
      findDestGo cat ls i0 none = none ∨
      (∃ j l, laneAt ls cat j l ∧
        findDestGo cat ls i0 none = some (i0 + j, l.users.length) ∧
        (∀ k l2, laneAt ls cat k l2 → l.users.length ≤ l2.users.length) ∧
        (∀ k l2, k < j → laneAt ls cat k l2 → l.users.length < l2.users.length)) := by
  intro ls
  induction ls with
  | nil =>
    intro i0
    left
    rfl
  | cons l0 ls ih =>
    intro i0
    by_cases hcat : l0.category = cat
    · right
      have hm : l0.category = cat ∧ betterThan none l0.users.length = true := ⟨hcat, rfl⟩
      have hgo : findDestGo cat (l0 :: ls) i0 none
          = findDestGo cat ls (i0 + 1) (some (i0, l0.users.length)) := by
        simp only [findDestGo, if_pos hm]
      rcases go_some cat ls (i0 + 1) i0 l0.users.length with
        ⟨hEq, hAll⟩ | ⟨j, lj, hAt, hEq, hlt, hMin, hStrict⟩
      · refine ⟨0, l0, (laneAt_cons_zero l0 ls cat l0).mpr ⟨rfl, hcat⟩, ?_, ?_, ?_⟩
        · rw [hgo, hEq, Nat.add_zero]
        · intro k l2 hk
          cases k with
          | zero =>
            rcases (laneAt_cons_zero l0 ls cat l2).mp hk with ⟨rfl, _⟩
            exact le_refl _
          | succ k2 => exact hAll k2 l2 ((laneAt_cons_succ l0 ls cat k2 l2).mp hk)
        · intro k l2 hklt _
          exact absurd hklt (Nat.not_lt_zero k)
      · refine ⟨j + 1, lj, (laneAt_cons_succ l0 ls cat j lj).mpr hAt, ?_, ?_, ?_⟩
        · rw [hgo, hEq]
          congr 2
          omega
        · intro k l2 hk
          cases k with
          | zero =>
            rcases (laneAt_cons_zero l0 ls cat l2).mp hk with ⟨rfl, _⟩
            exact le_of_lt hlt
          | succ k2 => exact hMin k2 l2 ((laneAt_cons_succ l0 ls cat k2 l2).mp hk)
        · intro k l2 hklt hk
          cases k with
          | zero =>
            rcases (laneAt_cons_zero l0 ls cat l2).mp hk with ⟨rfl, _⟩
            exact hlt
          | succ k2 =>
            exact hStrict k2 l2 (by omega) ((laneAt_cons_succ l0 ls cat k2 l2).mp hk)
    · have hm : ¬ (l0.category = cat ∧ betterThan none l0.users.length = true) :=
        fun h => hcat h.1
      have hgo : findDestGo cat (l0 :: ls) i0 none
          = findDestGo cat ls (i0 + 1) none := by
        simp only [findDestGo, if_neg hm]
      rcases ih (i0 + 1) with h | ⟨j, lj, hAt, hEq, hMin, hStrict⟩
      · left
        rw [hgo]
        exact h
      · right
        refine ⟨j + 1, lj, (laneAt_cons_succ l0 ls cat j lj).mpr hAt, ?_, ?_, ?_⟩
        · rw [hgo, hEq]
          congr 2
          omega
        · intro k l2 hk
          cases k with
          | zero =>
            rcases (laneAt_cons_zero l0 ls cat l2).mp hk with ⟨rfl, hcat2⟩
            exact absurd hcat2 hcat
          | succ k2 => exact hMin k2 l2 ((laneAt_cons_succ l0 ls cat k2 l2).mp hk)
        · intro k l2 hklt hk
          cases k with
          | zero =>
            rcases (laneAt_cons_zero l0 ls cat l2).mp hk with ⟨rfl, hcat2⟩
            exact absurd hcat2 hcat
          | succ k2 =>
            exact hStrict k2 l2 (by omega) ((laneAt_cons_succ l0 ls cat k2 l2).mp hk)

theorem filterMap_getElem_range (s : List User) :
    (List.range s.length).filterMap (fun i => s[i]?) = s := by
  induction s with
  | nil => rfl
  | cons a t ih =>
    rw [List.length_cons, List.range_succ_eq_map]
    rw [List.filterMap_cons]
    simp only [List.getElem?_cons_zero]
    rw [List.filterMap_map]
    have hfun : ((fun i => (a :: t)[i]?) ∘ Nat.succ) = (fun i => t[i]?) := by
      funext i
      simp
    rw [hfun, ih]

theorem cit_eq_specSample (sim : Simulation) (h : usersRange sim.state) (cat : UserCategory) :
    sim.category_intersection_times cat = specSample sim cat := by
  unfold Simulation.category_intersection_times specSample
  rw [h, filterMap_getElem_range]

theorem playStep_usersRange (s : Simulation) (h : usersRange s.state) :
    usersRange (playStep s).state :=
  (light_session_evolves (light_session s.state .NORTH_SOUTH) .EAST_WEST).2.2
    ((light_session_evolves s.state .NORTH_SOUTH).2.2 h)

theorem play_usersRange (sim : Simulation) (h : usersRange sim.state) :
    usersRange (Simulation.play sim).state :=
  play_inv (fun s => usersRange s.state) (fun s _ hP => playStep_usersRange s hP) sim h

theorem play_store_nonneg (sim : Simulation) (hn : storeNonneg sim.state.store) :
    storeMono sim.state.store (Simulation.play sim).state.store ∧
    storeNonneg (Simulation.play sim).state.store := by
  refine play_inv
    (fun s2 => storeMono sim.state.store s2.state.store ∧ storeNonneg s2.state.store)
    (fun s2 _ hP => ?_) sim ⟨storeMono_refl _, hn⟩
  have he1 := light_session_evolves s2.state LightPhase.NORTH_SOUTH
  have he2 := light_session_evolves (light_session s2.state .NORTH_SOUTH) LightPhase.EAST_WEST
  exact ⟨storeMono_trans hP.1 (storeMono_trans he1.1 he2.1), he2.2.1 (he1.2.1 hP.2)⟩

/-! The claims. -/

/-- C1: `Lane.discharge` first adds `clear_time / overlap` seconds to
every user queued in the lane; when the queue is non-empty it then pops
the head user, rounds the accumulated time of exactly that popped user once,
at pop time, and marks it cleared; on an empty queue the call is a
no-op, not an error, leaving the store and the lane unchanged. -/
theorem c1_discharge_spec (st : List User) (lane : Lane) :
    (lane.users = [] → Lane.discharge st lane = (st, lane)) ∧
    (∀ h t, lane.users = h :: t → lane.users.Nodup →
      (Lane.discharge st lane).2 = { lane with users := t } ∧
      (∀ j, ¬ j ∈ lane.users → ((Lane.discharge st lane).1)[j]? = st[j]?) ∧
      (∀ j, j ∈ t →
        ((Lane.discharge st lane).1)[j]?
          = (st[j]?).map (addTime (clear_time lane.category / overlaps lane.category))) ∧
      (((Lane.discharge st lane).1)[h]?
        = (st[h]?).map (fun u => popFinish
            (addTime (clear_time lane.category / overlaps lane.category) u)))) := by
  constructor
  · intro h
    exact Prod.ext_iff.mpr ⟨discharge_fst_nil st lane h, discharge_snd_nil st lane h⟩
  · intro h t hu hnd
    have hnd2 : (h :: t).Nodup := hu ▸ hnd
    have hht : ¬ h ∈ t := (List.nodup_cons.mp hnd2).1
    have hcount_h : lane.users.count h = 1 := by
      rw [hu, List.count_cons_self, List.count_eq_zero.mpr hht]
    refine ⟨discharge_snd_cons st lane h t hu, ?_, ?_, ?_⟩
    · intro j hj
      rw [discharge_getElem_cons st lane h t hu j]
      have hne : ¬ h = j := fun he => hj (he ▸ (hu ▸ List.mem_cons_self h t))
      rw [if_neg hne, List.count_eq_zero.mpr hj]
      cases st[j]? <;> simp [addTime_zero]
    · intro j hj
      rw [discharge_getElem_cons st lane h t hu j]
      have hne : ¬ h = j := fun he => hht (he ▸ hj)
      have hne3 : ¬ j = h := fun he => hne he.symm
      have hjt : t.count j = 1 :=
        List.count_eq_one_of_mem (List.nodup_cons.mp hnd2).2 hj
      have hc1 : lane.users.count j = 1 := by
        rw [hu, List.count_cons]
        simp [hjt, hne3, hne]
      rw [if_neg hne, hc1]
      norm_num
    · rw [discharge_getElem_cons st lane h t hu h, if_pos rfl, hcount_h]
      norm_num
      rfl

/-- Witness for C1 at a concrete store and lane: user 0 is popped,
rounded and cleared, user 1 only accumulates the increment, user 2
(not queued) is untouched. -/
theorem c1_discharge_spec_witness :
    (Lane.discharge c1store c1lane).2 = { c1lane with users := [1] } ∧
    ((Lane.discharge c1store c1lane).1)[2]? = c1store[2]? ∧
    ((Lane.discharge c1store c1lane).1)[0]?
      = (c1store[0]?).map (fun u => popFinish
          (addTime (clear_time c1lane.category / overlaps c1lane.category) u)) := by
  have h := (c1_discharge_spec c1store c1lane).2 0 [1] rfl (by decide)
  exact ⟨h.1, h.2.1 2 (by decide), h.2.2.2⟩

/-- C2: the green axis performs `floor(LIGHT_TIME * overlap /
clear_time)` discharge calls per category and source; for CAR that is
`floor(30 * 2 / 1) = 60`, so with zero arrivals a NORTH CAR lane
queueing at most 60 users is empty after one NORTH_SOUTH session, while
one queueing 61 retains exactly one. -/
theorem c2_discharge_quanta (ids : List ℕ) (st : List User) (us : List ℕ) :
    numCleared UserCategory.CAR = 60 ∧
    (light_session (c2state ids st us) LightPhase.NORTH_SOUTH).sources.north
      = ⟨Direction.NORTH, [⟨UserCategory.CAR, ids.drop 60⟩]⟩ ∧
    (ids.length ≤ 60 →
      (light_session (c2state ids st us) LightPhase.NORTH_SOUTH).sources.north
        = ⟨Direction.NORTH, [⟨UserCategory.CAR, []⟩]⟩) ∧
    (ids.length = 61 →
      ((light_session (c2state ids st us) LightPhase.NORTH_SOUTH).sources.north.lanes.map
        (fun l => l.users.length)) = [1]) := by
  refine ⟨by with_unfolding_all decide, light_session_c2 ids st us, ?_, ?_⟩
  · intro h
    rw [light_session_c2 ids st us, List.drop_eq_nil_of_le h]
  · intro h
    rw [light_session_c2 ids st us]
    simp [h]

/-- Witness for C2: 60 queued CAR users clear exactly; 61 leave one. -/
theorem c2_discharge_quanta_witness :
    (light_session (c2state (List.range 60) [] []) LightPhase.NORTH_SOUTH).sources.north
      = ⟨Direction.NORTH, [⟨UserCategory.CAR, []⟩]⟩ ∧
    ((light_session (c2state (List.range 61) [] []) LightPhase.NORTH_SOUTH).sources.north.lanes.map
      (fun l => l.users.length)) = [1] :=
  ⟨(c2_discharge_quanta (List.range 60) [] []).2.2.1 (by simp),
   (c2_discharge_quanta (List.range 61) [] []).2.2.2 (by simp)⟩

/-- C3: `run` first plays the simulation, then reports per category the
pair of the sample count rounded to the nearest thousand and the
rounded mean intersection time of exactly the cleared users of that
category (queued, uncleared users are excluded), with the sentinel -1
as mean when the sample is empty.  The sample is characterized against
the specification-side filter of the whole user store. -/
theorem c3_run_stats (sim : Simulation) (hinv : usersRange sim.state) (cat : UserCategory) :
    (Simulation.run sim).1 = Simulation.play sim ∧
    (Simulation.run sim).2 cat
      = (pyRoundNeg3 (specSample (Simulation.play sim) cat).length,
         if (specSample (Simulation.play sim) cat).isEmpty then -1
         else pyRound ((specSample (Simulation.play sim) cat).sum
            / (specSample (Simulation.play sim) cat).length)) := by
  have hpres := play_usersRange sim hinv
  refine ⟨run_fst sim, ?_⟩
  rw [run_snd sim cat, cit_eq_specSample (Simulation.play sim) hpres cat]

/-- Witness for C3 at the concrete one-lane simulation. -/
theorem c3_run_stats_witness :
    usersRange c5sim.state ∧
    (Simulation.run c5sim).2 UserCategory.CAR
      = (pyRoundNeg3 (specSample (Simulation.play c5sim) UserCategory.CAR).length,
         if (specSample (Simulation.play c5sim) UserCategory.CAR).isEmpty then -1
         else pyRound ((specSample (Simulation.play c5sim) UserCategory.CAR).sum
            / (specSample (Simulation.play c5sim) UserCategory.CAR).length)) :=
  ⟨rfl, (c3_run_stats c5sim rfl UserCategory.CAR).2⟩

/-- C4: no operation ever lowers the accumulated intersection time of a user
— hold, discharge (the pop-time rounding included, since every
increment is at least one half), user creation — so the times are
monotonically non-decreasing and never negative over the whole play. -/
theorem c4_time_monotone (sim : Simulation) (hn : storeNonneg sim.state.store) :
    (∀ st lane, storeMono st (Lane.hold st lane)) ∧
    (∀ st lane, storeMono st (Lane.discharge st lane).1) ∧
    (∀ st lane, storeNonneg st → storeNonneg (Lane.hold st lane)) ∧
    (∀ st lane, storeNonneg st → storeNonneg (Lane.discharge st lane).1) ∧
    (∀ s d c, storeMono (s : SimState).store (genOne s d c).store) ∧
    storeMono sim.state.store (Simulation.play sim).state.store ∧
    storeNonneg (Simulation.play sim).state.store := by
  refine ⟨hold_mono, discharge_mono, hold_nonneg, discharge_nonneg,
    fun s d c => (genOne_evolves s d c).1, ?_, ?_⟩
  · exact (play_store_nonneg sim hn).1
  · exact (play_store_nonneg sim hn).2

/-- Witness for C4 at the concrete one-lane simulation. -/
theorem c4_time_monotone_witness :
    storeNonneg c5sim.state.store ∧
    storeMono c5sim.state.store (Simulation.play c5sim).state.store ∧
    storeNonneg (Simulation.play c5sim).state.store := by
  have hn : storeNonneg c5sim.state.store := fun u hu => absurd hu (List.not_mem_nil u)
  exact ⟨hn, (c4_time_monotone c5sim hn).2.2.2.2.2.1,
    (c4_time_monotone c5sim hn).2.2.2.2.2.2⟩

set_option maxRecDepth 4000

/-- C5 counterexample: a complete run in which the single cleared CAR
user finishes with intersection time 0, strictly below
`clear_time CAR = 1`, because Python rounds the accumulated half second
`0.5` down to the even integer 0 at pop time; its wait time is -1. -/
theorem c5_counterexample :
    (Simulation.run c5sim).1.state.store = [⟨UserCategory.CAR, 0, true⟩] ∧
    (∃ u ∈ (Simulation.run c5sim).1.state.store,
      u.cleared = true ∧ u.intersection_time < clear_time u.category) := by
  have h1 : Simulation.play c5sim = playStep c5sim := by
    rw [play_of_lt c5sim (by with_unfolding_all decide),
        play_fix (playStep c5sim) (by with_unfolding_all decide)]
  rw [run_fst, h1]
  constructor
  · with_unfolding_all decide
  · with_unfolding_all decide

/-- C5 amended: over a run started from nonnegative times, the final intersection time of no cleared
user is negative, and the reported mean over
a non-empty sample is a genuine rounded mean and nonnegative; it can,
however, be below the `clear_time` of the category (see the
counterexample). -/
theorem c5_amended (sim : Simulation) (hn : storeNonneg sim.state.store) (cat : UserCategory) :
    (∀ u ∈ (Simulation.run sim).1.state.store, 0 ≤ u.intersection_time) ∧
    (¬ (Simulation.play sim).category_intersection_times cat = [] →
      ((Simulation.run sim).2 cat).2
        = pyRound (((Simulation.play sim).category_intersection_times cat).sum
            / ((Simulation.play sim).category_intersection_times cat).length) ∧
      0 ≤ ((Simulation.run sim).2 cat).2) := by
  have hplay : storeNonneg (Simulation.play sim).state.store := (play_store_nonneg sim hn).2
  have hsample : ∀ x ∈ (Simulation.play sim).category_intersection_times cat, 0 ≤ x := by
    intro x hx
    unfold Simulation.category_intersection_times at hx
    rcases List.mem_map.mp hx with ⟨u, hu, rfl⟩
    have hu2 := (List.mem_filter.mp hu).1
    rcases List.mem_filterMap.mp hu2 with ⟨i, _, hi⟩
    exact hplay u (List.mem_iff_getElem?.mpr ⟨i, hi⟩)
  constructor
  · intro u hu
    rw [run_fst] at hu
    exact hplay u hu
  · intro hne
    have hmean : ((Simulation.run sim).2 cat).2
        = pyRound (((Simulation.play sim).category_intersection_times cat).sum
            / ((Simulation.play sim).category_intersection_times cat).length) := by
      rw [run_snd sim cat]
      simp only []
      rw [if_neg (by simpa [List.isEmpty_iff] using hne)]
    refine ⟨hmean, ?_⟩
    rw [hmean]
    apply pyRound_nonneg
    apply div_nonneg (List.sum_nonneg hsample)
    positivity

/-- Witness for the amended claim of C5: in the counterexample run the CAR
sample is non-empty and the reported mean is nonnegative (namely 0). -/
theorem c5_amended_witness :
    storeNonneg c5sim.state.store ∧
    ¬ (Simulation.play c5sim).category_intersection_times UserCategory.CAR = [] ∧
    0 ≤ ((Simulation.run c5sim).2 UserCategory.CAR).2 := by
  have hn : storeNonneg c5sim.state.store := fun u hu => absurd hu (List.not_mem_nil u)
  have h1 : Simulation.play c5sim = playStep c5sim := by
    rw [play_of_lt c5sim (by with_unfolding_all decide),
        play_fix (playStep c5sim) (by with_unfolding_all decide)]
  have hne : ¬ (Simulation.play c5sim).category_intersection_times UserCategory.CAR = [] := by
    rw [h1]
    with_unfolding_all decide
  exact ⟨hn, hne, ((c5_amended c5sim hn UserCategory.CAR).2 hne).2⟩

/-- C6: arrival generation is identical in both phases — it alone
determines the global user list, and the store sizes of the two phases
of the same state agree; `expected = LIGHT_TIME / arrival_period` puts
exactly RT in the rare regime (`expected < 0.8`), where one draw yields
one user exactly when it is below `expected`; every other category
generates `round(expected * 2 * draw)` users. -/
theorem c6_arrival_model (u : ℚ) (st : SimState) :
    numberAdded UserCategory.CAR u = (pyRound (60 * u)).toNat ∧
    numberAdded UserCategory.RT u = (if u < 1 / 8 then 1 else 0) ∧
    numberAdded UserCategory.CYCLIST u = (pyRound (6 * u)).toNat ∧
    numberAdded UserCategory.PEDESTRIAN u = (pyRound (30 * u)).toNat ∧
    (LIGHT_TIME / period UserCategory.RT < 0.8) ∧
    (∀ c, ¬ c = UserCategory.RT → ¬ (LIGHT_TIME / period c < 0.8)) ∧
    (light_session st LightPhase.NORTH_SOUTH).users = (arrivals st).users ∧
    (light_session st LightPhase.EAST_WEST).users = (arrivals st).users ∧
    (light_session st LightPhase.NORTH_SOUTH).store.length
      = (light_session st LightPhase.EAST_WEST).store.length := by
  refine ⟨?_, ?_, ?_, ?_, by norm_num [LIGHT_TIME, period], ?_,
    light_session_users st _, light_session_users st _,
    by rw [light_session_store_length, light_session_store_length]⟩
  · unfold numberAdded
    rw [if_neg (by norm_num [LIGHT_TIME, period])]
    have harg : LIGHT_TIME / period UserCategory.CAR * 2 * u = 60 * u := by
      simp only [LIGHT_TIME, period]
      ring
    rw [harg]
  · unfold numberAdded
    rw [if_pos (by norm_num [LIGHT_TIME, period])]
    have harg : LIGHT_TIME / period UserCategory.RT = 1 / 8 := by
      simp only [LIGHT_TIME, period]
      norm_num
    rw [harg]
  · unfold numberAdded
    rw [if_neg (by norm_num [LIGHT_TIME, period])]
    have harg : LIGHT_TIME / period UserCategory.CYCLIST * 2 * u = 6 * u := by
      simp only [LIGHT_TIME, period]
      ring
    rw [harg]
  · unfold numberAdded
    rw [if_neg (by norm_num [LIGHT_TIME, period])]
    have harg : LIGHT_TIME / period UserCategory.PEDESTRIAN * 2 * u = 30 * u := by
      simp only [LIGHT_TIME, period]
      ring
    rw [harg]
  · intro c hc
    cases c with
    | RT => exact absurd rfl hc
    | CAR => norm_num [LIGHT_TIME, period]
    | CYCLIST => norm_num [LIGHT_TIME, period]
    | PEDESTRIAN => norm_num [LIGHT_TIME, period]

/-- Witness for C6 at the draw 1/2 and a concrete state. -/
theorem c6_arrival_model_witness :
    numberAdded UserCategory.CAR (1 / 2) = (pyRound (60 * (1 / 2))).toNat ∧
    ¬ (LIGHT_TIME / period UserCategory.CAR < 0.8) :=
  ⟨(c6_arrival_model (1 / 2) c5sim.state).1,
   (c6_arrival_model (1 / 2) c5sim.state).2.2.2.2.2.1 UserCategory.CAR (by decide)⟩

/-- C7: `Source.add` selects, among the lanes of the category of the user,
the one with the fewest queued users, preferring the earliest-created
lane on ties, appends the user id at the tail and reports success; with
no lane of that category it reports failure and changes nothing. -/
theorem c7_source_add (s : Source) (cat : UserCategory) (uid : ℕ) :
    ((∀ l ∈ s.lanes, l.category ≠ cat) → Source.add s cat uid = (false, s)) ∧
    ((∃ l ∈ s.lanes, l.category = cat) →
      ∃ (i : ℕ) (li : Lane), s.lanes[i]? = some li ∧ li.category = cat ∧
        (∀ (j : ℕ) (lj : Lane), s.lanes[j]? = some lj → lj.category = cat →
          li.users.length ≤ lj.users.length) ∧
        (∀ (j : ℕ) (lj : Lane), j < i → s.lanes[j]? = some lj → lj.category = cat →
          li.users.length < lj.users.length) ∧
        Source.add s cat uid
          = (true,
             { s with
               lanes := updAt s.lanes i (fun l => { l with users := l.users ++ [uid] }) })) := by
  constructor
  · intro h
    have hnone : Source.findDest s cat = none := (go_none_iff cat s.lanes 0).mpr h
    unfold Source.add
    rw [hnone]
  · rintro ⟨l, hl, hcat⟩
    rcases go_none_char cat s.lanes 0 with h | ⟨j, lj, hAt, hEq, hMin, hStrict⟩
    · exact absurd hcat ((go_none_iff cat s.lanes 0).mp h l hl)
    · rw [Nat.zero_add] at hEq
      have hEq2 : Source.findDest s cat = some (j, lj.users.length) := hEq
      refine ⟨j, lj, hAt.1, hAt.2, ?_, ?_, ?_⟩
      · intro k l2 h1 h2
        exact hMin k l2 ⟨h1, h2⟩
      · intro k l2 hk h1 h2
        exact hStrict k l2 hk ⟨h1, h2⟩
      · unfold Source.add
        rw [hEq2]

/-- Witness for C7: among lanes PEDESTRIAN, CAR[2], CAR[1], CAR[1] the
chosen lane is index 2, the first CAR lane of minimal load. -/
theorem c7_source_add_witness :
    (∃ l ∈ c7source.lanes, l.category = UserCategory.CAR) ∧
    (∃ (i : ℕ) (li : Lane), c7source.lanes[i]? = some li ∧ li.category = UserCategory.CAR ∧
      (∀ (j : ℕ) (lj : Lane), c7source.lanes[j]? = some lj → lj.category = UserCategory.CAR →
        li.users.length ≤ lj.users.length) ∧
      (∀ (j : ℕ) (lj : Lane), j < i → c7source.lanes[j]? = some lj →
        lj.category = UserCategory.CAR →
        li.users.length < lj.users.length) ∧
      Source.add c7source UserCategory.CAR 9
        = (true,
           { c7source with
             lanes := updAt c7source.lanes i (fun l => { l with users := l.users ++ [9] }) })) :=
  ⟨by decide, (c7_source_add c7source UserCategory.CAR 9).2 (by decide)⟩

/-- C8: adding a user to a lane of a different category is the one
raised error, while a matching add appends and succeeds; a source
without lanes of the arriving category reports failure and is left
unchanged, and the failed routing leaves the whole session state
unchanged — the discarded user reaches neither the store nor the
global user list. -/
theorem c8_error_handling (lane : Lane) (u : User) (uid : ℕ) (s : Source)
    (cat : UserCategory) (st : SimState) (d : Direction) :
    (¬ u.category = lane.category → Lane.add lane u uid = Except.error ()) ∧
    (u.category = lane.category →
      Lane.add lane u uid = Except.ok { lane with users := lane.users ++ [uid] }) ∧
    ((∀ l ∈ s.lanes, l.category ≠ cat) → Source.add s cat uid = (false, s)) ∧
    ((Source.add (getSource st.sources d) cat st.store.length).1 = false →
      genOne st d cat = st) := by
  refine ⟨?_, ?_, ?_, ?_⟩
  · intro h
    unfold Lane.add
    rw [if_pos h]
  · intro h
    unfold Lane.add
    rw [if_neg (by simpa using h)]
  · intro h
    have hnone : Source.findDest s cat = none := (go_none_iff cat s.lanes 0).mpr h
    unfold Source.add
    rw [hnone]
  · intro h
    simp only [genOne]
    rw [if_neg (by simp [h])]

/-- Witness for C8: a PEDESTRIAN rejected by a CAR lane, a CAR accepted
by it, a laneless source rejecting an add, and a failed routing leaving
the session state untouched. -/
theorem c8_error_handling_witness :
    Lane.add c1lane ⟨UserCategory.PEDESTRIAN, 0, false⟩ 3 = Except.error () ∧
    Lane.add c1lane ⟨UserCategory.CAR, 0, false⟩ 3
      = Except.ok { c1lane with users := c1lane.users ++ [3] } ∧
    Source.add ⟨Direction.EAST, []⟩ UserCategory.CAR 0 = (false, ⟨Direction.EAST, []⟩) ∧
    genOne (c2state [] [] []) Direction.EAST UserCategory.CAR = c2state [] [] [] := by
  refine ⟨?_, ?_, ?_, ?_⟩
  · exact (c8_error_handling c1lane ⟨UserCategory.PEDESTRIAN, 0, false⟩ 3
      ⟨Direction.EAST, []⟩ UserCategory.CAR (c2state [] [] []) Direction.EAST).1 (by decide)
  · exact (c8_error_handling c1lane ⟨UserCategory.CAR, 0, false⟩ 3
      ⟨Direction.EAST, []⟩ UserCategory.CAR (c2state [] [] []) Direction.EAST).2.1 (by decide)
  · exact (c8_error_handling c1lane ⟨UserCategory.CAR, 0, false⟩ 0
      ⟨Direction.EAST, []⟩ UserCategory.CAR (c2state [] [] []) Direction.EAST).2.2.1
      (by decide)
  · exact (c8_error_handling c1lane ⟨UserCategory.CAR, 0, false⟩ 0
      ⟨Direction.EAST, []⟩ UserCategory.CAR (c2state [] [] []) Direction.EAST).2.2.2
      (by decide)

/-- C9: the play loop terminates for every horizon — each iteration
advances the clock by the fixed positive 2 * LIGHT_TIME before the
NORTH_SOUTH and then the EAST_WEST session run; when the loop stops the
clock has reached the horizon, overshooting (when it started at or
below it) by less than one phase pair. -/
theorem c9_play_loop (sim : Simulation) :
    (sim.time < sim.stop_time →
      Simulation.play sim
        = Simulation.play
            { sim with time := sim.time + 2 * LIGHT_TIME,
                       state := light_session (light_session sim.state .NORTH_SOUTH)
                         .EAST_WEST }) ∧
    (¬ sim.time < sim.stop_time → Simulation.play sim = sim) ∧
    (Simulation.play sim).stop_time = sim.stop_time ∧
    ¬ (Simulation.play sim).time < (Simulation.play sim).stop_time ∧
    (sim.time ≤ sim.stop_time →
      (Simulation.play sim).time < sim.stop_time + 2 * LIGHT_TIME) := by
  refine ⟨fun h => play_of_lt sim h, fun h => play_fix sim h, ?_, play_post sim, ?_⟩
  · exact play_inv (fun s => s.stop_time = sim.stop_time) (fun s _ hP => hP) sim rfl
  · intro hle
    have h := play_inv
      (fun s => s.stop_time = sim.stop_time ∧ s.time < sim.stop_time + 2 * LIGHT_TIME)
      (fun s hlt hP => by
        refine ⟨hP.1, ?_⟩
        rw [playStep_time]
        rw [hP.1] at hlt
        have hl : (0 : ℚ) < 2 * LIGHT_TIME := by rw [LIGHT_TIME]; norm_num
        linarith)
      sim ⟨rfl, by
        have hl : (0 : ℚ) < 2 * LIGHT_TIME := by rw [LIGHT_TIME]; norm_num
        linarith⟩
    exact h.2

/-- Witness for C9 at the concrete one-phase-pair simulation. -/
theorem c9_play_loop_witness :
    c5sim.time < c5sim.stop_time ∧
    Simulation.play c5sim
      = Simulation.play
          { c5sim with time := c5sim.time + 2 * LIGHT_TIME,
                       state := light_session (light_session c5sim.state .NORTH_SOUTH)
                         .EAST_WEST } ∧
    (Simulation.play c5sim).time < c5sim.stop_time + 2 * LIGHT_TIME := by
  have hlt : c5sim.time < c5sim.stop_time := by with_unfolding_all decide
  exact ⟨hlt, (c9_play_loop c5sim).1 hlt,
    (c9_play_loop c5sim).2.2.2.2 (le_of_lt hlt)⟩

/-- C10: `average` divides with no guard, failing exactly on the empty
list, but `run` invokes it only behind the emptiness check, so the
failure branch is unreachable and the mean reported by `run` is always either the
sentinel or the genuine rounded mean. -/
theorem c10_average_guard (l : List ℚ) (sim : Simulation) (cat : UserCategory) :
    Simulation.average [] = Except.error () ∧
    (¬ l = [] → Simulation.average l = Except.ok (l.sum / l.length)) ∧
    (Simulation.run sim).2 cat
      = (pyRoundNeg3 ((Simulation.play sim).category_intersection_times cat).length,
         if ((Simulation.play sim).category_intersection_times cat).isEmpty then -1
         else pyRound (((Simulation.play sim).category_intersection_times cat).sum
            / ((Simulation.play sim).category_intersection_times cat).length)) :=
  ⟨average_err, fun h => average_ok l h, run_snd sim cat⟩

/-- Witness for C10: a singleton sample has a defined average. -/
theorem c10_average_guard_witness :
    Simulation.average [(2 : ℚ)]
      = Except.ok (([(2 : ℚ)].sum) / (([(2 : ℚ)].length : ℚ))) :=
  (c10_average_guard [(2 : ℚ)] c5sim UserCategory.CAR).2.1 (List.cons_ne_nil 2 [])

end TrafficSim
